import Mathlib

/-!
Verification of the combo-generation engine of the tricking-app API
(`internal/services/combo_service.go` together with the models in
`internal/models`).

The Go code is embedded shallowly:

* `Trick` keeps exactly the fields the combo logic reads (`ID`, `Name`,
  `Weight`, `TakeoffStanceID`, `LandingStanceID`, `Difficulty`); the other
  model fields (description, timestamps, creator, ...) are never touched by
  any function verified here and are omitted.  Go's `int`/`int16`/`int64`
  become `Int` (no arithmetic here can overflow at the declared scale:
  weights are `int16`, pools are externally bounded, and all sums are taken
  in `int64` in the source).
* `rand.Rand.Int63n n` returns a uniform value in `[0, n)`.  The generator
  is modelled as a stream `rng : Nat → Nat` of the raw draws, one index per
  `Int63n` call in call order; the value actually used for a draw with
  positive bound `n` is `rng k % n`, which ranges over exactly `[0, n)` as
  `rng k` ranges over `Nat`.  All theorems quantify over `rng`, i.e. over
  every possible sequence of random results.
* The repository fetch (`FindByFilters` / `FindAll`) is an external
  collaborator; `GenerateCombo` / `GenerateSimpleCombo` receive the fetched
  candidate list as an argument.
* Go slice indexing is total here via `getD` with `defaultTrick`; every use
  is proved in range, so the default stands only for states Go cannot reach.
-/

/-- The fields of `models.Trick` read by the combo engine.
`ID int`, `Name string`, `Weight int16`, `TakeoffStanceID *int`,
`LandingStanceID *int`, `Difficulty int64`. -/
structure Trick where
  id : Int
  name : String
  weight : Int
  takeoffStanceID : Option Int
  landingStanceID : Option Int
  difficulty : Int
deriving DecidableEq, Repr

/-- Stand-in value for Go slice reads that are proved unreachable. -/
def defaultTrick : Trick :=
  { id := 0, name := "", weight := 0, takeoffStanceID := none,
    landingStanceID := none, difficulty := 0 }

/-- `models.TrickSimpleResponse`: the minimal (id, name) projection. -/
structure TrickSimpleResponse where
  id : Int
  name : String
deriving DecidableEq, Repr

/-- `models.Trick.ToSimpleResponse`. -/
def ToSimpleResponse (t : Trick) : TrickSimpleResponse :=
  { id := t.id, name := t.name }

/-- `models.GeneratedComboResponse` (first revision: `Tricks`,
`TotalDifficulty`, `ComboNotation`; the `ComboNotation` field is named
`comboText` here). -/
structure GeneratedComboResponse where
  tricks : List TrickSimpleResponse
  totalDifficulty : Int
  comboText : String
deriving DecidableEq, Repr

/-- The effective weight of one candidate: the Go draw loops read
`weight := int64(trick.Weight); if weight < 1 { weight = 1 }`. -/
def effWeight (t : Trick) : Int :=
  if t.weight < 1 then 1 else t.weight

/-- The `totalWeight` accumulation loop of `selectTricksWeighted` /
`pickWeightedRandom`: `totalWeight := 0; for _, t := range l { totalWeight += w }`. -/
def totalWeight (l : List Trick) : Int :=
  l.foldl (fun acc t => acc + effWeight t) 0

/-- Recursive restatement of the sum of effective weights (proof helper). -/
def sumEff : List Trick → Int
  | [] => 0
  | t :: rest => effWeight t + sumEff rest

/-- Sum of the effective weights of the first `n` candidates.  Used to state
the cumulative-distribution-inversion property of the draw loops. -/
def cumWeight (l : List Trick) (n : Nat) : Int :=
  sumEff (l.take n)

/-- The position (relative to the front of `l`) of the first candidate whose
cumulative effective weight, starting from `cumulative`, strictly exceeds
`target`; `none` if no candidate crosses.  This is the specification-side
description of the draw step ("select the first candidate whose cumulative
weight exceeds target"). -/
def firstCrossing (target : Int) : List Trick → Int → Option Nat
  | [], _ => none
  | t :: rest, cumulative =>
    let c := cumulative + effWeight t
    if c > target then some 0 else (firstCrossing target rest c).map (· + 1)

/-- The index-finding loop of `selectTricksWeighted` (lines 184-196):
`selectedIdx := 0; for idx, trick := range available { cumulative += w;
if cumulative > target { selectedIdx = idx; break } }`.  `idx` is the
absolute index accumulator; falling off the end leaves the initial `0`. -/
def selectIdxGo (target : Int) : List Trick → Int → Nat → Nat
  | [], _, _ => 0
  | t :: rest, cumulative, idx =>
    let c := cumulative + effWeight t
    if c > target then idx else selectIdxGo target rest c (idx + 1)

/-- The scan loop of `pickWeightedRandom` (lines 292-301): returns the first
trick whose cumulative weight exceeds `target`, `none` when the loop falls
through to the trailing fallback. -/
def pickLoop (target : Int) : List Trick → Int → Option Trick
  | [], _ => none
  | t :: rest, cumulative =>
    let c := cumulative + effWeight t
    if c > target then some t else pickLoop target rest c

/-- The O(1) removal of `selectTricksWeighted` (lines 200-202):
`available[selectedIdx] = available[len(available)-1];
available = available[:len(available)-1]`. -/
def swapRemove (l : List Trick) (i : Nat) : List Trick :=
  match l.getLast? with
  | none => l
  | some b => (l.set i b).dropLast

/-- The selection loop of `selectTricksWeighted` (lines 168-203).
`fuel` is the remaining iteration count (`i < count`), `k` the index of the
next raw random value, `selected` the output accumulator.  The second
component records the argument passed to each `rng.Int63n` call, in call
order (instrumentation for the panic-freedom claim). -/
def selWGo (rng : Nat → Nat) : Nat → Nat → List Trick → List Trick → List Int →
    List Trick × List Int
  | _, 0, _, selected, args => (selected, args)
  | k, fuel + 1, available, selected, args =>
    if available.isEmpty then (selected, args)
    else
      let tw := totalWeight available
      let target : Int := (rng k : Int) % tw
      let i := selectIdxGo target available 0 0
      let pick := available.getD i defaultTrick
      selWGo rng (k + 1) fuel (swapRemove available i) (selected ++ [pick])
        (args ++ [tw])

/-- `selectTricksWeighted` (lines 145-206) with its `Int63n` argument trace.
The Go function first copies `candidates` into a fresh working slice; the
heap-level model below (`selectTricksWeightedH`) covers that aliasing
behaviour, here the copy is value-identical to the input. -/
def selectTricksWeightedI (candidates : List Trick) (count : Int)
    (rng : Nat → Nat) : List Trick × List Int :=
  selWGo rng 0 count.toNat candidates [] []

/-- `selectTricksWeighted`: the selected sequence, in draw order. -/
def selectTricksWeighted (candidates : List Trick) (count : Int)
    (rng : Nat → Nat) : List Trick :=
  (selectTricksWeightedI candidates count rng).1

/-- `pickWeightedRandom` (lines 275-304) with its `Int63n` argument trace:
a single-element list short-circuits without consuming randomness; otherwise
one `Int63n(totalWeight)` call happens and the trailing
`return tricks[len(tricks)-1]` is the fallback when the loop falls through.
On `[]` the Go code would panic inside `Int63n(0)`; the model records the
non-positive argument `0` and returns a default. -/
def pickWeightedRandomI (tricks : List Trick) (r : Nat) : Trick × List Int :=
  if tricks.length = 1 then (tricks.getD 0 defaultTrick, [])
  else
    let tw := totalWeight tricks
    let target : Int := (r : Int) % tw
    match pickLoop target tricks 0 with
    | some t => (t, [tw])
    | none => (tricks.getLast?.getD defaultTrick, [tw])

/-- `filterCompatibleTricks` (lines 307-320): with no landing stance every
trick works; otherwise keep tricks with no takeoff requirement or a matching
one. -/
def filterCompatibleTricks (tricks : List Trick) (landingStanceID : Option Int) :
    List Trick :=
  match landingStanceID with
  | none => tricks
  | some s =>
    tricks.filter fun t =>
      match t.takeoffStanceID with
      | none => true
      | some x => x == s

/-- `removeTrick` (lines 323-330): splice out the first trick with the given
id (`append(tricks[:i], tricks[i+1:]...)`), or return the list unchanged. -/
def removeTrick (tricks : List Trick) (id : Int) : List Trick :=
  match tricks with
  | [] => []
  | t :: rest => if t.id = id then rest else t :: removeTrick rest id

/-- One subsequent pick of `selectTricksWithFlow` (lines 256-265): restrict
to stance-compatible tricks, draw from them if any, otherwise fall back to
the full remaining pool. -/
def flowPickNext (available : List Trick) (lastTrick : Trick) (r : Nat) :
    Trick × List Int :=
  let compatible := filterCompatibleTricks available lastTrick.landingStanceID
  if compatible.isEmpty then pickWeightedRandomI available r
  else pickWeightedRandomI compatible r

/-- The loop of `selectTricksWithFlow` (lines 252-269).  `fuel` counts the
remaining iterations (`i` from 1 to `count-1`), `k` is the index of the next
raw random value and advances by the number of `Int63n` calls actually made
(the single-element shortcut of `pickWeightedRandom` consumes none). -/
def selectFlowGo (rng : Nat → Nat) : Nat → Nat → List Trick → Trick →
    List Trick → List Int → List Trick × List Int
  | 0, _, _, _, selected, args => (selected, args)
  | fuel + 1, k, available, lastTrick, selected, args =>
    if available.isEmpty then (selected, args)
    else
      let pa := flowPickNext available lastTrick (rng k)
      selectFlowGo rng fuel (k + pa.2.length) (removeTrick available pa.1.id)
        pa.1 (selected ++ [pa.1]) (args ++ pa.2)

/-- `selectTricksWithFlow` (lines 237-272) with its `Int63n` argument trace.
The early return fires on an empty pool or `count == 0`; the first pick is a
plain weighted draw over the whole pool, then `count - 1` flow-biased picks
follow. -/
def selectTricksWithFlowI (candidates : List Trick) (count : Int)
    (rng : Nat → Nat) : List Trick × List Int :=
  if candidates.isEmpty ∨ count = 0 then ([], [])
  else
    let fa := pickWeightedRandomI candidates (rng 0)
    selectFlowGo rng (count.toNat - 1) fa.2.length
      (removeTrick candidates fa.1.id) fa.1 [fa.1] fa.2

/-- `selectTricksWithFlow`: the selected sequence, in draw order. -/
def selectTricksWithFlow (candidates : List Trick) (count : Int)
    (rng : Nat → Nat) : List Trick :=
  (selectTricksWithFlowI candidates count rng).1

/-- `buildComboResponse` (lines 209-229): project every selected trick to
its simple response, sum the difficulties, and join the names with " > ". -/
def buildComboResponse (tricks : List Trick) : GeneratedComboResponse :=
  { tricks := tricks.map ToSimpleResponse
    totalDifficulty := tricks.foldl (fun acc t => acc + t.difficulty) 0
    comboText := String.intercalate " > " (tricks.map (·.name)) }

/-- The two sentinel errors of the service plus the wrapping context that
`fmt.Errorf("%w: need %d tricks, only %d available", ...)` attaches. -/
inductive ComboError where
  | invalidSize
  | insufficientTricks (need : Int) (available : Nat)
deriving DecidableEq, Repr

/-- `ErrInvalidComboSize.Error()`. -/
def errInvalidComboSizeMsg : String := "combo size must be at least 1"

/-- `ErrInsufficientTricks.Error()`. -/
def errInsufficientTricksMsg : String :=
  "not enough tricks available for requested combo size"

/-- The error string surfaced to the caller for each failure. -/
def comboErrorMessage : ComboError → String
  | .invalidSize => errInvalidComboSizeMsg
  | .insufficientTricks need available =>
    errInsufficientTricksMsg ++ ": need " ++ toString need ++
      " tricks, only " ++ toString available ++ " available"

/-- `GenerateCombo` (lines 67-115), parameterised by the candidate list the
repository fetch returned (the fetch itself is an external collaborator):
validate the size, check the pool is large enough, select, and assemble. -/
def GenerateCombo (candidateTricks : List Trick) (size : Int)
    (rng : Nat → Nat) : Except ComboError GeneratedComboResponse :=
  if size < 1 then .error .invalidSize
  else if (candidateTricks.length : Int) < size then
    .error (.insufficientTricks size candidateTricks.length)
  else
    .ok (buildComboResponse (selectTricksWeighted candidateTricks size rng))

/-- `GenerateSimpleCombo` (lines 119-137), parameterised by the full trick
list that `FindAll` returned. -/
def GenerateSimpleCombo (allTricks : List Trick) (size : Int)
    (rng : Nat → Nat) : Except ComboError GeneratedComboResponse :=
  if size < 1 then .error .invalidSize
  else if (allTricks.length : Int) < size then
    .error (.insufficientTricks size allTricks.length)
  else
    .ok (buildComboResponse (selectTricksWeighted allTricks size rng))

/-! ### Heap-level model of the slice operations (frame behaviour)

Go slices alias a backing buffer.  `selectTricksWeighted` and
`selectTricksWithFlow` both start with `available := make([]Trick, ...)`
followed by `copy(available, candidates)` and then mutate only that fresh
buffer (`available[selectedIdx] = available[len-1]`, truncation, and the
in-place splice of `removeTrick`).  To make the read-only-input property
falsifiable, buffers live in an explicit heap: a slice is a buffer id plus
a visible length (every slice here starts at offset 0), allocation returns
a fresh id, and every write names the buffer it hits.  `selected` and the
compatible set stay value-level: Go builds them by `make`/`append` into
buffers that are freshly allocated, and the one case where
`filterCompatibleTricks` returns its argument (nil landing stance) aliases
the working copy only for reads. -/

/-- The mutable store: a bump allocator over trick buffers. -/
structure Heap where
  next : Nat
  mem : Nat → List Trick

/-- A Go slice view (buffer id and visible length, offset 0). -/
structure SliceRef where
  buf : Nat
  len : Nat

/-- The values visible through a slice. -/
def readSlice (h : Heap) (s : SliceRef) : List Trick :=
  (h.mem s.buf).take s.len

/-- Overwrite one buffer. -/
def writeBuf (h : Heap) (b : Nat) (v : List Trick) : Heap :=
  { next := h.next, mem := fun i => if i = b then v else h.mem i }

/-- `make` plus `copy`: allocate a fresh buffer holding the given values. -/
def allocBuf (h : Heap) (v : List Trick) : Heap × Nat :=
  ({ next := h.next + 1, mem := fun i => if i = h.next then v else h.mem i },
    h.next)

/-- Index of the first trick with the given id (the loop of `removeTrick`). -/
def findIdxWithId : List Trick → Int → Option Nat
  | [], _ => none
  | t :: rest, id =>
    if t.id = id then some 0 else (findIdxWithId rest id).map (· + 1)

/-- Heap semantics of `removeTrick`: `append(tricks[:i], tricks[i+1:]...)`
splices in place, shifting the elements after `i` one slot left inside the
same buffer and shrinking the visible length by one; the buffer slots from
`len - 1` on keep their old values.  With no match the slice is returned
unchanged. -/
def removeTrickH (h : Heap) (s : SliceRef) (id : Int) : Heap × SliceRef :=
  let l := readSlice h s
  match findIdxWithId l id with
  | none => (h, s)
  | some i =>
    (writeBuf h s.buf
      ((l.take i ++ l.drop (i + 1)) ++ (h.mem s.buf).drop (s.len - 1)),
      { buf := s.buf, len := s.len - 1 })

/-- Heap semantics of the loop of `selectTricksWeighted`: the write
`available[selectedIdx] = available[len-1]` hits the working buffer, the
truncation shrinks the visible length. -/
def selWGoH (rng : Nat → Nat) : Nat → Nat → Heap → SliceRef → List Trick →
    Heap × List Trick
  | _, 0, h, _, selected => (h, selected)
  | k, fuel + 1, h, avail, selected =>
    let av := readSlice h avail
    if av.isEmpty then (h, selected)
    else
      let tw := totalWeight av
      let target : Int := (rng k : Int) % tw
      let i := selectIdxGo target av 0 0
      let pick := av.getD i defaultTrick
      let h' := writeBuf h avail.buf
        ((h.mem avail.buf).set i (av.getD (av.length - 1) defaultTrick))
      selWGoH rng (k + 1) fuel h' { buf := avail.buf, len := avail.len - 1 }
        (selected ++ [pick])

/-- Heap-level `selectTricksWeighted`: copy the caller's slice into a fresh
working buffer and run the selection loop there. -/
def selectTricksWeightedH (h : Heap) (candidates : SliceRef) (count : Int)
    (rng : Nat → Nat) : Heap × List Trick :=
  let l := readSlice h candidates
  let ha := allocBuf h l
  selWGoH rng 0 count.toNat ha.1 { buf := ha.2, len := l.length } []

/-- Heap semantics of the loop of `selectTricksWithFlow`: the only heap
effect per iteration is the in-place splice of `removeTrick` on the working
buffer. -/
def selectFlowGoH (rng : Nat → Nat) : Nat → Nat → Heap → SliceRef → Trick →
    List Trick → Heap × List Trick
  | 0, _, h, _, _, selected => (h, selected)
  | fuel + 1, k, h, avail, lastTrick, selected =>
    let av := readSlice h avail
    if av.isEmpty then (h, selected)
    else
      let pa := flowPickNext av lastTrick (rng k)
      let hr := removeTrickH h avail pa.1.id
      selectFlowGoH rng fuel (k + pa.2.length) hr.1 hr.2 pa.1 (selected ++ [pa.1])

/-- Heap-level `selectTricksWithFlow`. -/
def selectTricksWithFlowH (h : Heap) (candidates : SliceRef) (count : Int)
    (rng : Nat → Nat) : Heap × List Trick :=
  let l := readSlice h candidates
  if l.isEmpty ∨ count = 0 then (h, [])
  else
    let ha := allocBuf h l
    let fa := pickWeightedRandomI l (rng 0)
    let hr := removeTrickH ha.1 { buf := ha.2, len := l.length } fa.1.id
    selectFlowGoH rng (count.toNat - 1) fa.2.length hr.1 hr.2 fa.1 [fa.1]

/-! ### Concrete fixtures (used only to instantiate theorems on explicit inputs) -/

/-- Concrete candidate: id 1, weight 10 (the spec's concrete scenario). -/
def trickW1 : Trick :=
  { id := 1, name := "backflip", weight := 10, takeoffStanceID := none,
    landingStanceID := none, difficulty := 3 }

/-- Concrete candidate: id 2, weight 1. -/
def trickW2 : Trick :=
  { id := 2, name := "540 kick", weight := 1, takeoffStanceID := none,
    landingStanceID := none, difficulty := 5 }

/-- Concrete candidate: id 3, weight 0 (zero weight, still selectable). -/
def trickW3 : Trick :=
  { id := 3, name := "webster", weight := 0, takeoffStanceID := none,
    landingStanceID := none, difficulty := 4 }

/-- Concrete first pick for the flow variant: lands in stance 1. -/
def trickFlowPrev : Trick :=
  { id := 10, name := "cork", weight := 1, takeoffStanceID := none,
    landingStanceID := some 1, difficulty := 6 }

/-- Concrete candidate whose takeoff stance equals stance 1. -/
def trickFlowMatch : Trick :=
  { id := 11, name := "swingthru", weight := 1, takeoffStanceID := some 1,
    landingStanceID := none, difficulty := 2 }

/-- Concrete candidate with no takeoff stance requirement. -/
def trickFlowFree : Trick :=
  { id := 12, name := "hook", weight := 1, takeoffStanceID := none,
    landingStanceID := none, difficulty := 1 }

/-- Concrete candidate whose takeoff stance is 2 (incompatible with stance 1). -/
def trickFlowOther : Trick :=
  { id := 13, name := "raiz", weight := 1, takeoffStanceID := some 2,
    landingStanceID := none, difficulty := 2 }

/-- A concrete stream of raw random values. -/
def natRng : Nat → Nat := fun k => k

/-! ### Weight arithmetic -/

theorem one_le_effWeight (t : Trick) : 1 ≤ effWeight t := by
  unfold effWeight; split <;> omega

theorem effWeight_eq_max (t : Trick) : effWeight t = max t.weight 1 := by
  unfold effWeight; split <;> omega

theorem sumEff_nonneg : ∀ l : List Trick, 0 ≤ sumEff l
  | [] => le_refl 0
  | t :: rest => by
    have h1 := one_le_effWeight t
    have h2 := sumEff_nonneg rest
    simp only [sumEff]; omega

theorem one_le_sumEff {l : List Trick} (h : l ≠ []) : 1 ≤ sumEff l := by
  match l with
  | [] => exact absurd rfl h
  | t :: rest =>
    have h1 := one_le_effWeight t
    have h2 := sumEff_nonneg rest
    simp only [sumEff]; omega

theorem foldl_add_eff : ∀ (l : List Trick) (init : Int),
    l.foldl (fun acc t => acc + effWeight t) init = init + sumEff l
  | [], init => by simp [sumEff]
  | t :: rest, init => by
    simp only [List.foldl_cons, sumEff, foldl_add_eff rest]; ring

theorem totalWeight_eq_sumEff (l : List Trick) : totalWeight l = sumEff l := by
  simp [totalWeight, foldl_add_eff]

theorem totalWeight_cons (t : Trick) (l : List Trick) :
    totalWeight (t :: l) = effWeight t + totalWeight l := by
  simp [totalWeight_eq_sumEff, sumEff]

theorem one_le_totalWeight {l : List Trick} (h : l ≠ []) : 1 ≤ totalWeight l := by
  rw [totalWeight_eq_sumEff]; exact one_le_sumEff h

theorem sumEff_append : ∀ (a b : List Trick), sumEff (a ++ b) = sumEff a + sumEff b
  | [], b => by simp [sumEff]
  | t :: rest, b => by
    show effWeight t + sumEff (rest ++ b) = effWeight t + sumEff rest + sumEff b
    rw [sumEff_append rest b]
    ring

theorem cumWeight_zero (l : List Trick) : cumWeight l 0 = 0 := rfl

theorem cumWeight_cons_succ (t : Trick) (rest : List Trick) (j : Nat) :
    cumWeight (t :: rest) (j + 1) = effWeight t + cumWeight rest j := rfl

theorem cumWeight_nonneg (l : List Trick) (n : Nat) : 0 ≤ cumWeight l n :=
  sumEff_nonneg _

theorem cumWeight_le_sumEff (l : List Trick) (n : Nat) :
    cumWeight l n ≤ sumEff l := by
  have h : sumEff l = cumWeight l n + sumEff (l.drop n) := by
    rw [cumWeight, ← sumEff_append, List.take_append_drop]
  have h2 := sumEff_nonneg (l.drop n)
  omega

theorem cumWeight_succ : ∀ (l : List Trick) (i : Nat), i < l.length →
    cumWeight l (i + 1) = cumWeight l i + effWeight (l.getD i defaultTrick)
  | [], i, h => by simp at h
  | t :: rest, 0, _ => by
    simp [cumWeight_cons_succ, cumWeight_zero]
  | t :: rest, i + 1, h => by
    have hi : i < rest.length := by simpa using h
    simp only [cumWeight_cons_succ, cumWeight_succ rest i hi, List.getD_cons_succ]
    ring

/-! ### The first-crossing characterisation of the draw loops -/

theorem firstCrossing_total : ∀ (l : List Trick) (cum target : Int),
    cum ≤ target → target < cum + sumEff l →
    ∃ j, firstCrossing target l cum = some j
  | [], cum, target, h1, h2 => by simp [sumEff] at h2; omega
  | t :: rest, cum, target, h1, h2 => by
    by_cases hc : cum + effWeight t > target
    · exact ⟨0, by simp [firstCrossing, hc]⟩
    · push_neg at hc
      have h2' : target < (cum + effWeight t) + sumEff rest := by
        simp only [sumEff] at h2; omega
      obtain ⟨j, hj⟩ := firstCrossing_total rest (cum + effWeight t) target hc h2'
      exact ⟨j + 1, by simp [firstCrossing, hj, not_lt.mpr hc]⟩

theorem firstCrossing_lt_length : ∀ (l : List Trick) (cum target : Int) (j : Nat),
    firstCrossing target l cum = some j → j < l.length
  | [], cum, target, j, h => by simp [firstCrossing] at h
  | t :: rest, cum, target, j, h => by
    simp only [firstCrossing] at h
    split at h
    · simp only [Option.some.injEq] at h
      simp only [List.length_cons]
      omega
    · simp only [Option.map_eq_some'] at h
      obtain ⟨j', hj', rfl⟩ := h
      have := firstCrossing_lt_length rest (cum + effWeight t) target j' hj'
      simp only [List.length_cons]
      omega

theorem firstCrossing_char : ∀ (l : List Trick) (cum target : Int) (j : Nat),
    cum ≤ target → firstCrossing target l cum = some j →
    cum + cumWeight l j ≤ target ∧ target < cum + cumWeight l (j + 1)
  | [], cum, target, j, h1, h => by simp [firstCrossing] at h
  | t :: rest, cum, target, j, h1, h => by
    simp only [firstCrossing] at h
    split at h
    · rename_i hc
      cases h
      constructor
      · simpa [cumWeight_zero] using h1
      · simpa [cumWeight_cons_succ, cumWeight_zero] using hc
    · rename_i hc
      push_neg at hc
      simp only [Option.map_eq_some'] at h
      obtain ⟨j', hj', rfl⟩ := h
      have ih := firstCrossing_char rest (cum + effWeight t) target j' hc hj'
      constructor
      · have := ih.1; simp only [cumWeight_cons_succ]; omega
      · have := ih.2; simp only [cumWeight_cons_succ]; omega

theorem firstCrossing_of_bounds : ∀ (l : List Trick) (cum target : Int) (i : Nat),
    i < l.length → cum + cumWeight l i ≤ target →
    target < cum + cumWeight l (i + 1) →
    firstCrossing target l cum = some i
  | [], cum, target, i, hi, _, _ => by simp at hi
  | t :: rest, cum, target, 0, hi, h1, h2 => by
    have hc : cum + effWeight t > target := by
      simpa [cumWeight_cons_succ, cumWeight_zero] using h2
    simp [firstCrossing, hc]
  | t :: rest, cum, target, i + 1, hi, h1, h2 => by
    have hi' : i < rest.length := by simpa using hi
    have hcw := cumWeight_nonneg rest i
    have h1' : (cum + effWeight t) + cumWeight rest i ≤ target := by
      rw [cumWeight_cons_succ] at h1; omega
    have h2' : target < (cum + effWeight t) + cumWeight rest (i + 1) := by
      rw [cumWeight_cons_succ] at h2; omega
    have hc : ¬ cum + effWeight t > target := by omega
    have ih := firstCrossing_of_bounds rest (cum + effWeight t) target i hi' h1' h2'
    simp [firstCrossing, hc, ih]

theorem selectIdxGo_eq : ∀ (l : List Trick) (cum target : Int) (j : Nat),
    firstCrossing target l cum = some j →
    ∀ idx, selectIdxGo target l cum idx = idx + j
  | [], cum, target, j, h, idx => by simp [firstCrossing] at h
  | t :: rest, cum, target, j, h, idx => by
    simp only [firstCrossing] at h
    split at h
    · rename_i hc
      cases h
      simp [selectIdxGo, hc]
    · rename_i hc
      simp only [Option.map_eq_some'] at h
      obtain ⟨j', hj', rfl⟩ := h
      have ih := selectIdxGo_eq rest (cum + effWeight t) target j' hj' (idx + 1)
      simp only [selectIdxGo, hc, if_false, ih]
      omega

theorem pickLoop_eq : ∀ (l : List Trick) (cum target : Int) (j : Nat),
    firstCrossing target l cum = some j →
    pickLoop target l cum = some (l.getD j defaultTrick)
  | [], cum, target, j, h => by simp [firstCrossing] at h
  | t :: rest, cum, target, j, h => by
    simp only [firstCrossing] at h
    split at h
    · rename_i hc
      cases h
      simp [pickLoop, hc]
    · rename_i hc
      simp only [Option.map_eq_some'] at h
      obtain ⟨j', hj', rfl⟩ := h
      have ih := pickLoop_eq rest (cum + effWeight t) target j' hj'
      simp [pickLoop, hc, ih]

theorem pickLoop_mem : ∀ (l : List Trick) (cum target : Int) (t : Trick),
    pickLoop target l cum = some t → t ∈ l
  | [], cum, target, t, h => by simp [pickLoop] at h
  | x :: rest, cum, target, t, h => by
    simp only [pickLoop] at h
    split at h
    · cases h; exact List.mem_cons_self x rest
    · exact List.mem_cons_of_mem x (pickLoop_mem rest _ target t h)

/-! ### The swap-with-last removal -/

theorem swapRemove_length {l : List Trick} (h : l ≠ []) (i : Nat) :
    (swapRemove l i).length = l.length - 1 := by
  obtain ⟨b, hb⟩ : ∃ b, l.getLast? = some b := by
    cases hl : l.getLast? with
    | none => exact absurd (List.getLast?_eq_none_iff.mp hl) h
    | some b => exact ⟨b, rfl⟩
  simp [swapRemove, hb]

theorem swapRemove_perm : ∀ (l : List Trick) (i : Nat), i < l.length →
    (l.getD i defaultTrick :: swapRemove l i).Perm l
  | [], i, h => by simp at h
  | [t], i, h => by
    have : i = 0 := by simpa using h
    subst this
    simp [swapRemove]
  | t :: r :: rs, 0, h => by
    obtain ⟨b, hb⟩ : ∃ b, (r :: rs).getLast? = some b :=
      ⟨(r :: rs).getLast (by simp), List.getLast?_eq_getLast _ _⟩
    have hrb : (r :: rs).dropLast ++ [b] = r :: rs :=
      List.dropLast_append_getLast? b hb
    have hsr : swapRemove (t :: r :: rs) 0 = b :: (r :: rs).dropLast := by
      simp only [swapRemove, List.getLast?_cons_cons, hb, List.set_cons_zero,
        List.dropLast_cons₂]
    rw [hsr]
    simp only [List.getD_cons_zero]
    have h2 : (b :: (r :: rs).dropLast).Perm ((r :: rs).dropLast ++ [b]) :=
      (List.perm_append_singleton b _).symm
    have h3 := List.Perm.cons t h2
    rw [hrb] at h3
    exact h3
  | t :: r :: rs, i + 1, h => by
    have hi : i < (r :: rs).length := by simpa using h
    obtain ⟨b, hb⟩ : ∃ b, (r :: rs).getLast? = some b :=
      ⟨(r :: rs).getLast (by simp), List.getLast?_eq_getLast _ _⟩
    have hsr : swapRemove (t :: r :: rs) (i + 1) = t :: swapRemove (r :: rs) i := by
      rcases hs : (r :: rs).set i b with _ | ⟨s, ss⟩
      · have := congrArg List.length hs
        simp at this
      · simp only [swapRemove, List.getLast?_cons_cons, hb, List.set_cons_succ, hs,
          List.dropLast_cons₂]
    rw [hsr]
    simp only [List.getD_cons_succ]
    have ih := swapRemove_perm (r :: rs) i hi
    exact (List.Perm.swap t _ _).trans (List.Perm.cons t ih)

/-! ### The selection loop of `selectTricksWeighted` -/

theorem getD_mem : ∀ {l : List Trick} {j : Nat}, j < l.length →
    l.getD j defaultTrick ∈ l
  | [], j, h => by simp at h
  | t :: rest, 0, _ => by simp
  | t :: rest, j + 1, h => by
    simp only [List.getD_cons_succ]
    exact List.mem_cons_of_mem _ (getD_mem (by simpa using h))

/-- One step of the selection loop on a non-empty working list. -/
theorem selWGo_step (rng : Nat → Nat) (k fuel : Nat) (available selected : List Trick)
    (args : List Int) (h : ¬ available.isEmpty) :
    selWGo rng k (fuel + 1) available selected args =
      selWGo rng (k + 1) fuel
        (swapRemove available
          (selectIdxGo ((rng k : Int) % totalWeight available) available 0 0))
        (selected ++
          [available.getD
            (selectIdxGo ((rng k : Int) % totalWeight available) available 0 0)
            defaultTrick])
        (args ++ [totalWeight available]) := by
  simp only [selWGo]
  rw [if_neg h]

/-- Loop invariant of `selectTricksWeighted`: the output extends `selected`
with a block `chosen` of picks, `chosen` together with some leftover `rest`
is a permutation of the working list, and exactly
`min fuel available.length` picks are made. -/
theorem selWGo_spec (rng : Nat → Nat) : ∀ (fuel k : Nat)
    (available selected : List Trick) (args : List Int),
    ∃ chosen rest,
      (selWGo rng k fuel available selected args).1 = selected ++ chosen ∧
      (chosen ++ rest).Perm available ∧
      chosen.length = min fuel available.length
  | 0, k, available, selected, args =>
    ⟨[], available, by simp [selWGo], by simp, by simp⟩
  | fuel + 1, k, available, selected, args => by
    by_cases hav : available.isEmpty
    · have hnil : available = [] := List.isEmpty_iff.mp hav
      refine ⟨[], [], ?_, ?_, ?_⟩
      · simp [selWGo, hav]
      · simp [hnil]
      · simp [hnil]
    · have hne : available ≠ [] := by
        intro hc; exact hav (by simp [hc])
      have htw : 1 ≤ totalWeight available := one_le_totalWeight hne
      have h0 : 0 ≤ (rng k : Int) % totalWeight available :=
        Int.emod_nonneg _ (by omega)
      have hlt : (rng k : Int) % totalWeight available < totalWeight available :=
        Int.emod_lt_of_pos _ (by omega)
      have hlt' : (rng k : Int) % totalWeight available < 0 + sumEff available := by
        have heq := totalWeight_eq_sumEff available
        omega
      obtain ⟨j, hj⟩ :=
        firstCrossing_total available 0 ((rng k : Int) % totalWeight available) h0 hlt'
      have hjlen := firstCrossing_lt_length available 0 _ j hj
      have hidx : selectIdxGo ((rng k : Int) % totalWeight available) available 0 0 = j := by
        simpa using selectIdxGo_eq available 0 _ j hj 0
      obtain ⟨chosen', rest', hres, hperm, hlen⟩ :=
        selWGo_spec rng fuel (k + 1) (swapRemove available j)
          (selected ++ [available.getD j defaultTrick]) (args ++ [totalWeight available])
      refine ⟨available.getD j defaultTrick :: chosen', rest', ?_, ?_, ?_⟩
      · rw [selWGo_step rng k fuel available selected args hav, hidx, hres]
        simp
      · have hcons : ((available.getD j defaultTrick :: chosen') ++ rest') =
            available.getD j defaultTrick :: (chosen' ++ rest') := rfl
        rw [hcons]
        exact (List.Perm.cons _ hperm).trans (swapRemove_perm available j hjlen)
      · have hsl := swapRemove_length hne j
        have hpos : 1 ≤ available.length := by
          cases available with
          | nil => exact absurd rfl hne
          | cons a l => simp
        simp only [List.length_cons, hlen, hsl]
        omega

/-- C1: for every candidate pool with pairwise-distinct trick ids and every
count with `1 ≤ count ≤ |pool|`, the weighted selection succeeds and returns
exactly `count` tricks, pairwise distinct by id, all drawn from the pool;
when `count = |pool|` (e.g. a 3-element pool with count 3) the output is a
permutation of the pool, and `GenerateCombo` wraps it in an `ok` response. -/
theorem weighted_selection_complete (pool : List Trick) (count : Int)
    (rng : Nat → Nat) (hids : pool.Pairwise (fun a b => a.id ≠ b.id))
    (h1 : 1 ≤ count) (h2 : count ≤ (pool.length : Int)) :
    ((selectTricksWeighted pool count rng).length : Int) = count ∧
    (selectTricksWeighted pool count rng).Pairwise (fun a b => a.id ≠ b.id) ∧
    (∀ t ∈ selectTricksWeighted pool count rng, t ∈ pool) ∧
    (count = (pool.length : Int) → (selectTricksWeighted pool count rng).Perm pool) ∧
    GenerateCombo pool count rng =
      .ok (buildComboResponse (selectTricksWeighted pool count rng)) := by
  obtain ⟨chosen, rest, hres, hperm, hlen⟩ := selWGo_spec rng count.toNat 0 pool [] []
  have hres' : selectTricksWeighted pool count rng = chosen := by
    simpa [selectTricksWeighted, selectTricksWeightedI] using hres
  have hcnt : count.toNat ≤ pool.length := by omega
  have hlen' : chosen.length = count.toNat := by rw [hlen]; omega
  have hpw : (chosen ++ rest).Pairwise (fun a b => a.id ≠ b.id) :=
    List.Pairwise.perm hids hperm.symm (fun h => Ne.symm h)
  refine ⟨?_, ?_, ?_, ?_, ?_⟩
  · rw [hres', hlen']; omega
  · rw [hres']
    exact List.Pairwise.sublist (List.sublist_append_left chosen rest) hpw
  · intro t ht
    rw [hres'] at ht
    exact hperm.mem_iff.mp (List.mem_append_left rest ht)
  · intro hc
    have hlenp := hperm.length_eq
    have hrest : rest.length = 0 := by
      simp only [List.length_append] at hlenp
      omega
    have hrnil : rest = [] := List.length_eq_zero.mp hrest
    rw [hres']
    simpa [hrnil] using hperm
  · unfold GenerateCombo
    rw [if_neg (by omega), if_neg (by omega)]

/-- C1 witness: the spec's concrete scenario, a 3-element pool drawn with
count 3 under an explicit random stream. -/
theorem weighted_selection_complete_witness :
    ([trickW1, trickW2, trickW3].Pairwise (fun a b => a.id ≠ b.id) ∧
      1 ≤ (3 : Int) ∧ (3 : Int) ≤ (([trickW1, trickW2, trickW3] : List Trick).length : Int)) ∧
    (((selectTricksWeighted [trickW1, trickW2, trickW3] 3 natRng).length : Int) = 3 ∧
      (selectTricksWeighted [trickW1, trickW2, trickW3] 3 natRng).Pairwise
        (fun a b => a.id ≠ b.id) ∧
      (∀ t ∈ selectTricksWeighted [trickW1, trickW2, trickW3] 3 natRng,
        t ∈ [trickW1, trickW2, trickW3]) ∧
      ((3 : Int) = (([trickW1, trickW2, trickW3] : List Trick).length : Int) →
        (selectTricksWeighted [trickW1, trickW2, trickW3] 3 natRng).Perm
          [trickW1, trickW2, trickW3]) ∧
      GenerateCombo [trickW1, trickW2, trickW3] 3 natRng =
        .ok (buildComboResponse (selectTricksWeighted [trickW1, trickW2, trickW3] 3 natRng))) :=
  ⟨⟨by decide, by decide, by decide⟩,
    weighted_selection_complete [trickW1, trickW2, trickW3] 3 natRng
      (by decide) (by decide) (by decide)⟩

/-- C2: whenever the pool is smaller than the requested (valid) count, both
generation entry points fail with the insufficient-tricks error that carries
the requested count and the available pool size, whose rendered message
embeds both numbers; no sequence is produced. -/
theorem insufficient_pool_fails (pool : List Trick) (count : Int)
    (rng : Nat → Nat) (h1 : 1 ≤ count) (h2 : (pool.length : Int) < count) :
    GenerateCombo pool count rng =
      .error (.insufficientTricks count pool.length) ∧
    GenerateSimpleCombo pool count rng =
      .error (.insufficientTricks count pool.length) ∧
    comboErrorMessage (.insufficientTricks count pool.length) =
      errInsufficientTricksMsg ++ ": need " ++ toString count ++
        " tricks, only " ++ toString pool.length ++ " available" := by
  refine ⟨?_, ?_, rfl⟩
  · unfold GenerateCombo
    rw [if_neg (by omega), if_pos h2]
  · unfold GenerateSimpleCombo
    rw [if_neg (by omega), if_pos h2]

/-- C2 witness: pool of size 2, count 5; the message names "5" and "2". -/
theorem insufficient_pool_fails_witness :
    (1 ≤ (5 : Int) ∧ (([trickW1, trickW2] : List Trick).length : Int) < 5) ∧
    (GenerateCombo [trickW1, trickW2] 5 natRng =
        .error (.insufficientTricks 5 ([trickW1, trickW2] : List Trick).length) ∧
      GenerateSimpleCombo [trickW1, trickW2] 5 natRng =
        .error (.insufficientTricks 5 ([trickW1, trickW2] : List Trick).length) ∧
      comboErrorMessage (.insufficientTricks 5 ([trickW1, trickW2] : List Trick).length) =
        errInsufficientTricksMsg ++ ": need " ++ toString (5 : Int) ++
          " tricks, only " ++ toString ([trickW1, trickW2] : List Trick).length ++
          " available") ∧
    comboErrorMessage (.insufficientTricks 5 2) =
      "not enough tricks available for requested combo size: need 5 tricks, only 2 available" :=
  ⟨⟨by decide, by decide⟩,
    insufficient_pool_fails [trickW1, trickW2] 5 natRng (by decide) (by decide),
    by decide⟩

/-- C3: a requested count below 1 (zero or negative) makes both generation
entry points fail with the invalid-size error, for every pool. -/
theorem invalid_size_fails (pool : List Trick) (count : Int) (rng : Nat → Nat)
    (h : count < 1) :
    GenerateCombo pool count rng = .error .invalidSize ∧
    GenerateSimpleCombo pool count rng = .error .invalidSize := by
  refine ⟨?_, ?_⟩
  · unfold GenerateCombo
    rw [if_pos h]
  · unfold GenerateSimpleCombo
    rw [if_pos h]

/-- C3 witness: count 0 on a non-trivial pool. -/
theorem invalid_size_fails_witness :
    ((0 : Int) < 1) ∧
    (GenerateCombo [trickW1, trickW2] 0 natRng = .error .invalidSize ∧
      GenerateSimpleCombo [trickW1, trickW2] 0 natRng = .error .invalidSize) :=
  ⟨by decide, invalid_size_fails [trickW1, trickW2] 0 natRng (by decide)⟩

/-- C5: for a non-empty candidate list and any target in `[0, totalWeight)`,
the draw step selects exactly the first candidate whose cumulative effective
weight strictly exceeds the target (cumulative-distribution inversion, ties
broken by iteration order); such a candidate exists, both the index-finding
loop of `selectTricksWeighted` and the scan loop of `pickWeightedRandom`
find it, and the trailing fallback of `pickWeightedRandom` is never
reached. -/
theorem draw_first_crossing (l : List Trick) (target : Int)
    (h0 : 0 ≤ target) (ht : target < totalWeight l) :
    ∃ j, j < l.length ∧ firstCrossing target l 0 = some j ∧
      cumWeight l j ≤ target ∧ target < cumWeight l (j + 1) ∧
      selectIdxGo target l 0 0 = j ∧
      pickLoop target l 0 = some (l.getD j defaultTrick) ∧
      ∀ r : Nat, (r : Int) % totalWeight l = target →
        (pickWeightedRandomI l r).1 = l.getD j defaultTrick := by
  have hne : l ≠ [] := by
    intro hc
    subst hc
    simp [totalWeight] at ht
    omega
  have hlt' : target < 0 + sumEff l := by
    have heq := totalWeight_eq_sumEff l
    omega
  obtain ⟨j, hj⟩ := firstCrossing_total l 0 target h0 hlt'
  have hjl := firstCrossing_lt_length l 0 target j hj
  have hchar := firstCrossing_char l 0 target j h0 hj
  have hidx : selectIdxGo target l 0 0 = j := by
    simpa using selectIdxGo_eq l 0 target j hj 0
  have hpl := pickLoop_eq l 0 target j hj
  refine ⟨j, hjl, hj, by simpa using hchar.1, by simpa using hchar.2, hidx, hpl, ?_⟩
  intro r hr
  unfold pickWeightedRandomI
  by_cases h1 : l.length = 1
  · rw [if_pos h1]
    have hj0 : j = 0 := by omega
    subst hj0
    rfl
  · rw [if_neg h1]
    simp only [hr, hpl]

/-- C5 witness: a two-element list with weights 1 and 10, target 5; the
second candidate is the first crossing. -/
theorem draw_first_crossing_witness :
    (0 ≤ (5 : Int) ∧ (5 : Int) < totalWeight [trickW2, trickW1]) ∧
    (∃ j, j < ([trickW2, trickW1] : List Trick).length ∧
      firstCrossing 5 [trickW2, trickW1] 0 = some j ∧
      cumWeight [trickW2, trickW1] j ≤ 5 ∧ (5 : Int) < cumWeight [trickW2, trickW1] (j + 1) ∧
      selectIdxGo 5 [trickW2, trickW1] 0 0 = j ∧
      pickLoop 5 [trickW2, trickW1] 0 = some ([trickW2, trickW1].getD j defaultTrick) ∧
      ∀ r : Nat, (r : Int) % totalWeight [trickW2, trickW1] = 5 →
        (pickWeightedRandomI [trickW2, trickW1] r).1 =
          [trickW2, trickW1].getD j defaultTrick) :=
  ⟨⟨by decide, by decide⟩, draw_first_crossing [trickW2, trickW1] 5 (by decide) (by decide)⟩

/-- C6: the effective weight is `max(weight, 1)`, so a candidate with zero
or negative weight contributes exactly 1 to the total weight, and every
remaining candidate — whatever its weight — is selected by some target in
`[0, totalWeight)`: no candidate has selection probability zero. -/
theorem zero_weight_selectable (l : List Trick) (i : Nat) (hi : i < l.length) :
    (∀ t : Trick, effWeight t = max t.weight 1) ∧
    (∀ t : Trick, t.weight ≤ 0 → effWeight t = 1) ∧
    (∀ (t : Trick) (m : List Trick), totalWeight (t :: m) = effWeight t + totalWeight m) ∧
    ∃ target : Int, 0 ≤ target ∧ target < totalWeight l ∧
      selectIdxGo target l 0 0 = i ∧
      pickLoop target l 0 = some (l.getD i defaultTrick) := by
  refine ⟨effWeight_eq_max, ?_, totalWeight_cons, ?_⟩
  · intro t h
    unfold effWeight
    rw [if_pos (by omega)]
  · have hsucc := cumWeight_succ l i hi
    have heff := one_le_effWeight (l.getD i defaultTrick)
    have hub : cumWeight l i < totalWeight l := by
      have hle := cumWeight_le_sumEff l (i + 1)
      have heq := totalWeight_eq_sumEff l
      omega
    have hfc : firstCrossing (cumWeight l i) l 0 = some i := by
      refine firstCrossing_of_bounds l 0 (cumWeight l i) i hi (by omega) (by omega)
    refine ⟨cumWeight l i, cumWeight_nonneg l i, hub, ?_, ?_⟩
    · simpa using selectIdxGo_eq l 0 (cumWeight l i) i hfc 0
    · exact pickLoop_eq l 0 (cumWeight l i) i hfc

/-- C6 witness: a pool holding a zero-weight candidate (`trickW3`), which is
still reachable by a concrete target. -/
theorem zero_weight_selectable_witness :
    (1 < ([trickW1, trickW3] : List Trick).length) ∧
    ((∀ t : Trick, effWeight t = max t.weight 1) ∧
      (∀ t : Trick, t.weight ≤ 0 → effWeight t = 1) ∧
      (∀ (t : Trick) (m : List Trick),
        totalWeight (t :: m) = effWeight t + totalWeight m) ∧
      ∃ target : Int, 0 ≤ target ∧ target < totalWeight [trickW1, trickW3] ∧
        selectIdxGo target [trickW1, trickW3] 0 0 = 1 ∧
        pickLoop target [trickW1, trickW3] 0 =
          some ([trickW1, trickW3].getD 1 defaultTrick)) :=
  ⟨by decide, zero_weight_selectable [trickW1, trickW3] 1 (by decide)⟩

/-! ### The flow-aware variant -/

theorem pickWeightedRandomI_mem {l : List Trick} (h : l ≠ []) (r : Nat) :
    (pickWeightedRandomI l r).1 ∈ l := by
  simp only [pickWeightedRandomI]
  split
  · rename_i h1
    exact getD_mem (by omega)
  · split
    · rename_i t hp
      exact pickLoop_mem l 0 _ t hp
    · cases hl : l.getLast? with
      | none => exact absurd (List.getLast?_eq_none_iff.mp hl) h
      | some b =>
        simp only [hl, Option.getD_some]
        exact List.mem_of_getLast?_eq_some hl

theorem mem_filterCompatibleTricks {t : Trick} {l : List Trick} {s : Option Int}
    (h : t ∈ filterCompatibleTricks l s) : t ∈ l := by
  unfold filterCompatibleTricks at h
  cases s with
  | none => exact h
  | some v => exact List.mem_of_mem_filter h

theorem flowPickNext_mem {av : List Trick} (h : av ≠ []) (lastTrick : Trick)
    (r : Nat) : (flowPickNext av lastTrick r).1 ∈ av := by
  simp only [flowPickNext]
  split
  · exact pickWeightedRandomI_mem h r
  · rename_i hc
    have hcne : filterCompatibleTricks av lastTrick.landingStanceID ≠ [] := by
      intro hx
      exact hc (by simp [hx])
    exact mem_filterCompatibleTricks (pickWeightedRandomI_mem hcne r)

theorem removeTrick_length_of_mem : ∀ {l : List Trick} {a : Trick}, a ∈ l →
    (removeTrick l a.id).length + 1 = l.length
  | [], a, h => by simp at h
  | t :: rest, a, h => by
    simp only [removeTrick]
    by_cases hid : t.id = a.id
    · rw [if_pos hid]
      simp
    · rw [if_neg hid]
      have ha : a ∈ rest := by
        cases List.mem_cons.mp h with
        | inl he => exact absurd (congrArg Trick.id he).symm hid
        | inr hm => exact hm
      have ih := removeTrick_length_of_mem ha
      simp only [List.length_cons]
      omega

/-- Loop invariant of `selectTricksWithFlow`: as long as the working list
can feed every remaining iteration, each iteration appends exactly one pick
(drawing from the compatible set or falling back to the full remaining
pool). -/
theorem selectFlowGo_length (rng : Nat → Nat) : ∀ (fuel k : Nat)
    (available : List Trick) (lastTrick : Trick) (selected : List Trick)
    (args : List Int), fuel ≤ available.length →
    ((selectFlowGo rng fuel k available lastTrick selected args).1).length =
      selected.length + fuel
  | 0, k, available, lastTrick, selected, args, h => by simp [selectFlowGo]
  | fuel + 1, k, available, lastTrick, selected, args, h => by
    have hne : available ≠ [] := by
      intro hc
      subst hc
      simp at h
    have hnemp : ¬ (available.isEmpty = true) := by simp [hne]
    simp only [selectFlowGo]
    rw [if_neg hnemp]
    have hmem := flowPickNext_mem hne lastTrick (rng k)
    have hrl := removeTrick_length_of_mem hmem
    rw [selectFlowGo_length rng fuel _ _ _ _ _ (by omega)]
    simp only [List.length_append, List.length_cons, List.length_nil]
    omega

/-- C7: with pairwise-distinct ids, `1 ≤ count` and a pool at least as large
as `count`, the flow-aware selection returns exactly `count` tricks for
every random stream — in particular also when some step finds no
stance-compatible candidate and falls back to the full remaining pool. -/
theorem flow_selection_full_length (pool : List Trick) (count : Int)
    (rng : Nat → Nat) (hids : pool.Pairwise (fun a b => a.id ≠ b.id))
    (h1 : 1 ≤ count) (h2 : count ≤ (pool.length : Int)) :
    ((selectTricksWithFlow pool count rng).length : Int) = count := by
  have hlen : 1 ≤ pool.length := by omega
  have hne : pool ≠ [] := by
    intro hc
    subst hc
    simp at hlen
  have hguard : ¬ (pool.isEmpty = true ∨ count = 0) := by
    rintro (hg | hg)
    · exact hne (by simpa using hg)
    · omega
  unfold selectTricksWithFlow
  simp only [selectTricksWithFlowI]
  rw [if_neg hguard]
  have hmem := pickWeightedRandomI_mem hne (rng 0)
  have hrl := removeTrick_length_of_mem hmem
  rw [selectFlowGo_length rng (count.toNat - 1) _ _ _ _ _ (by omega)]
  simp only [List.length_cons, List.length_nil]
  omega

/-- C7 witness: a two-element pool where the second pick finds no compatible
candidate (takeoff stance 2 against landing stance 1) and must fall back;
the output still has full length 2. -/
theorem flow_selection_full_length_witness :
    (([trickFlowPrev, trickFlowOther] : List Trick).Pairwise
        (fun a b => a.id ≠ b.id) ∧
      1 ≤ (2 : Int) ∧
      (2 : Int) ≤ (([trickFlowPrev, trickFlowOther] : List Trick).length : Int)) ∧
    ((selectTricksWithFlow [trickFlowPrev, trickFlowOther] 2 natRng).length : Int) = 2 ∧
    filterCompatibleTricks [trickFlowOther] trickFlowPrev.landingStanceID = [] :=
  ⟨⟨by decide, by decide, by decide⟩,
    flow_selection_full_length [trickFlowPrev, trickFlowOther] 2 natRng
      (by decide) (by decide) (by decide),
    by decide⟩

/-- C4 as frozen is falsified by the code: in the pool
`[trickFlowPrev, trickFlowMatch, trickFlowFree]` with count 2 the first pick
is `trickFlowPrev` (landing stance 1) and exactly one remaining candidate
(`trickFlowMatch`) has takeoff stance equal to that landing stance, yet the
run with raw random stream `natRng` picks `trickFlowFree` next — the
restricted set also contains the candidate with unset takeoff stance, so the
"unique matching candidate" is not chosen with probability 1. -/
theorem flow_single_match_not_deterministic :
    trickFlowPrev.landingStanceID = some 1 ∧
    removeTrick [trickFlowPrev, trickFlowMatch, trickFlowFree] trickFlowPrev.id =
      [trickFlowMatch, trickFlowFree] ∧
    (([trickFlowMatch, trickFlowFree] : List Trick).filter
      (fun t => t.takeoffStanceID == some 1)).length = 1 ∧
    trickFlowMatch.takeoffStanceID = some 1 ∧
    (selectTricksWithFlowI [trickFlowPrev, trickFlowMatch, trickFlowFree] 2 natRng).1 =
      [trickFlowPrev, trickFlowFree] ∧
    trickFlowFree ≠ trickFlowMatch := by
  refine ⟨by decide, by decide, by decide, by decide, by decide, by decide⟩

/-- C4 (amended): when the previous pick's landing stance is set and the
restricted compatible set (remaining candidates whose takeoff stance is
unset or equal to that landing stance) has exactly one member, that member
is selected for every value of the random draw; and for a set landing
stance the restricted set contains exactly the remaining candidates whose
takeoff stance is unset or equal to it. -/
theorem flow_single_compatible_deterministic (available : List Trick)
    (lastTrick : Trick) (s : Int) (c : Trick)
    (hls : lastTrick.landingStanceID = some s)
    (hone : filterCompatibleTricks available (some s) = [c]) :
    (∀ r : Nat, (flowPickNext available lastTrick r).1 = c) ∧
    (∀ m : List Trick, filterCompatibleTricks m none = m) ∧
    (∀ (m : List Trick) (t : Trick), t ∈ filterCompatibleTricks m (some s) ↔
      t ∈ m ∧ (t.takeoffStanceID = none ∨ t.takeoffStanceID = some s)) := by
  refine ⟨?_, fun m => rfl, ?_⟩
  · intro r
    simp only [flowPickNext, hls, hone]
    rfl
  · intro m t
    simp only [filterCompatibleTricks, List.mem_filter]
    constructor
    · rintro ⟨hm, hp⟩
      refine ⟨hm, ?_⟩
      cases hx : t.takeoffStanceID with
      | none => exact Or.inl rfl
      | some x =>
        rw [hx] at hp
        simp only [beq_iff_eq] at hp
        exact Or.inr (congrArg some hp)
    · rintro ⟨hm, hp⟩
      refine ⟨hm, ?_⟩
      cases hp with
      | inl hx => rw [hx]
      | inr hx => rw [hx]; simp

/-- C4 amended-theorem witness: remaining pool `[trickFlowMatch]` after a
pick landing in stance 1; the single compatible candidate is chosen for
every draw (instantiated at `r = 7`). -/
theorem flow_single_compatible_deterministic_witness :
    (trickFlowPrev.landingStanceID = some 1 ∧
      filterCompatibleTricks [trickFlowMatch, trickFlowOther] (some 1) =
        [trickFlowMatch]) ∧
    (flowPickNext [trickFlowMatch, trickFlowOther] trickFlowPrev 7).1 =
      trickFlowMatch ∧
    filterCompatibleTricks [trickFlowMatch, trickFlowOther] none =
      [trickFlowMatch, trickFlowOther] ∧
    (trickFlowOther ∈ filterCompatibleTricks [trickFlowMatch, trickFlowOther] (some 1) ↔
      trickFlowOther ∈ [trickFlowMatch, trickFlowOther] ∧
        (trickFlowOther.takeoffStanceID = none ∨
          trickFlowOther.takeoffStanceID = some 1)) :=
  ⟨⟨by decide, by decide⟩,
    (flow_single_compatible_deterministic [trickFlowMatch, trickFlowOther]
      trickFlowPrev 1 trickFlowMatch (by decide) (by decide)).1 7,
    (flow_single_compatible_deterministic [trickFlowMatch, trickFlowOther]
      trickFlowPrev 1 trickFlowMatch (by decide) (by decide)).2.1
      [trickFlowMatch, trickFlowOther],
    (flow_single_compatible_deterministic [trickFlowMatch, trickFlowOther]
      trickFlowPrev 1 trickFlowMatch (by decide) (by decide)).2.2
      [trickFlowMatch, trickFlowOther] trickFlowOther⟩

/-! ### Positivity of every random bound (panic freedom) -/

theorem selWGo_args_pos (rng : Nat → Nat) : ∀ (fuel k : Nat)
    (available selected : List Trick) (args : List Int),
    (∀ x ∈ args, 1 ≤ x) →
    ∀ x ∈ (selWGo rng k fuel available selected args).2, 1 ≤ x
  | 0, k, available, selected, args, h => by
    simpa [selWGo] using h
  | fuel + 1, k, available, selected, args, h => by
    by_cases hav : available.isEmpty
    · have : selWGo rng k (fuel + 1) available selected args = (selected, args) := by
        simp [selWGo, hav]
      rw [this]
      exact h
    · have hne : available ≠ [] := by
        intro hc
        exact hav (by simp [hc])
      rw [selWGo_step rng k fuel available selected args hav]
      refine selWGo_args_pos rng fuel (k + 1) _ _ _ ?_
      intro x hx
      cases List.mem_append.mp hx with
      | inl hx' => exact h x hx'
      | inr hx' =>
        have : x = totalWeight available := by simpa using hx'
        rw [this]
        exact one_le_totalWeight hne

theorem pickWeightedRandomI_args {l : List Trick} (h : l ≠ []) (r : Nat) :
    ∀ x ∈ (pickWeightedRandomI l r).2, 1 ≤ x := by
  simp only [pickWeightedRandomI]
  split
  · simp
  · split
    · intro x hx
      have hxe : x = totalWeight l := by simpa using hx
      rw [hxe]
      exact one_le_totalWeight h
    · intro x hx
      have hxe : x = totalWeight l := by simpa using hx
      rw [hxe]
      exact one_le_totalWeight h

theorem flowPickNext_args {av : List Trick} (h : av ≠ []) (lastTrick : Trick)
    (r : Nat) : ∀ x ∈ (flowPickNext av lastTrick r).2, 1 ≤ x := by
  simp only [flowPickNext]
  split
  · exact pickWeightedRandomI_args h r
  · rename_i hc
    have hcne : filterCompatibleTricks av lastTrick.landingStanceID ≠ [] := by
      intro hx
      exact hc (by simp [hx])
    exact pickWeightedRandomI_args hcne r

theorem selectFlowGo_args (rng : Nat → Nat) : ∀ (fuel k : Nat)
    (available : List Trick) (lastTrick : Trick) (selected : List Trick)
    (args : List Int), (∀ x ∈ args, 1 ≤ x) →
    ∀ x ∈ (selectFlowGo rng fuel k available lastTrick selected args).2, 1 ≤ x
  | 0, k, available, lastTrick, selected, args, h => by
    simpa [selectFlowGo] using h
  | fuel + 1, k, available, lastTrick, selected, args, h => by
    by_cases hav : available.isEmpty
    · have : selectFlowGo rng (fuel + 1) k available lastTrick selected args =
          (selected, args) := by
        simp [selectFlowGo, hav]
      rw [this]
      exact h
    · have hne : available ≠ [] := by
        intro hc
        exact hav (by simp [hc])
      have hstep : selectFlowGo rng (fuel + 1) k available lastTrick selected args =
          selectFlowGo rng fuel (k + (flowPickNext available lastTrick (rng k)).2.length)
            (removeTrick available (flowPickNext available lastTrick (rng k)).1.id)
            (flowPickNext available lastTrick (rng k)).1
            (selected ++ [(flowPickNext available lastTrick (rng k)).1])
            (args ++ (flowPickNext available lastTrick (rng k)).2) := by
        simp only [selectFlowGo]
        rw [if_neg hav]
      rw [hstep]
      refine selectFlowGo_args rng fuel _ _ _ _ _ ?_
      intro x hx
      cases List.mem_append.mp hx with
      | inl hx' => exact h x hx'
      | inr hx' => exact flowPickNext_args hne lastTrick (rng k) x hx'

/-- C10: every argument ever passed to `rng.Int63n` by either sampler is
strictly positive, for every pool, count and random stream: the weighted
loop only draws while the working list is non-empty (total weight at least
1), and `pickWeightedRandom` is only invoked on non-empty lists, so the
`Int63n` panic on a non-positive bound is unreachable. -/
theorem int63n_args_positive (candidates : List Trick) (count : Int)
    (rng : Nat → Nat) :
    (∀ x ∈ (selectTricksWeightedI candidates count rng).2, 1 ≤ x) ∧
    (∀ x ∈ (selectTricksWithFlowI candidates count rng).2, 1 ≤ x) := by
  constructor
  · exact selWGo_args_pos rng count.toNat 0 candidates [] [] (by simp)
  · by_cases hg : candidates.isEmpty = true ∨ count = 0
    · simp only [selectTricksWithFlowI]
      rw [if_pos hg]
      simp
    · have hne : candidates ≠ [] := by
        intro hc
        exact hg (Or.inl (by simp [hc]))
      simp only [selectTricksWithFlowI]
      rw [if_neg hg]
      exact selectFlowGo_args rng _ _ _ _ _ _
        (pickWeightedRandomI_args hne (rng 0))

/-- C10 witness: a concrete two-element pool; the one recorded bound is the
total weight 11, and it is positive. -/
theorem int63n_args_positive_witness :
    (11 : Int) ∈ (selectTricksWeightedI [trickW2, trickW1] 1 natRng).2 ∧
    (1 : Int) ≤ 11 :=
  ⟨by decide, (int63n_args_positive [trickW2, trickW1] 1 natRng).1 11 (by decide)⟩

/-! ### The combo assembler -/

theorem map_ToSimpleResponse_getD : ∀ (l : List Trick) (i : Nat), i < l.length →
    (l.map ToSimpleResponse).getD i (ToSimpleResponse defaultTrick) =
      ToSimpleResponse (l.getD i defaultTrick)
  | [], i, h => by simp at h
  | t :: rest, 0, _ => by simp
  | t :: rest, i + 1, h => by
    simp only [List.map_cons, List.getD_cons_succ]
    exact map_ToSimpleResponse_getD rest i (by simpa using h)

/-- C8: the assembler is a total function on every input sequence
(including the empty one) whose tricks list has the same length as the
input and whose i-th element is exactly the (id, name) pair of the i-th
input trick, in input order. -/
theorem assembler_projects_in_order (l : List Trick) :
    (buildComboResponse l).tricks.length = l.length ∧
    ∀ i, i < l.length →
      (buildComboResponse l).tricks.getD i (ToSimpleResponse defaultTrick) =
        { id := (l.getD i defaultTrick).id,
          name := (l.getD i defaultTrick).name } := by
  constructor
  · simp [buildComboResponse]
  · intro i hi
    simp only [buildComboResponse]
    rw [map_ToSimpleResponse_getD l i hi]
    rfl

/-- C8 witness: a concrete two-element sequence, projected at index 0; the
empty sequence is also covered (the assembler yields an empty tricks
list). -/
theorem assembler_projects_in_order_witness :
    ((0 : Nat) < ([trickW1, trickW2] : List Trick).length ∧
      (buildComboResponse []).tricks = [] ∧
      (buildComboResponse [trickW1, trickW2]).tricks =
        [{ id := 1, name := "backflip" }, { id := 2, name := "540 kick" }]) ∧
    (buildComboResponse [trickW1, trickW2]).tricks.getD 0
        (ToSimpleResponse defaultTrick) =
      { id := ([trickW1, trickW2].getD 0 defaultTrick).id,
        name := ([trickW1, trickW2].getD 0 defaultTrick).name } :=
  ⟨⟨by decide, by decide, by decide⟩,
    (assembler_projects_in_order [trickW1, trickW2]).2 0 (by decide)⟩

/-! ### Frame property: the samplers never write the caller's buffer -/

theorem writeBuf_mem_other (h : Heap) (b : Nat) (v : List Trick) {b' : Nat}
    (hne : b' ≠ b) : (writeBuf h b v).mem b' = h.mem b' := by
  simp [writeBuf, hne]

theorem selWGoH_mem_other (rng : Nat → Nat) : ∀ (fuel k : Nat) (h : Heap)
    (avail : SliceRef) (selected : List Trick) {b : Nat}, b ≠ avail.buf →
    ((selWGoH rng k fuel h avail selected).1).mem b = h.mem b
  | 0, k, h, avail, selected, b, hb => rfl
  | fuel + 1, k, h, avail, selected, b, hb => by
    simp only [selWGoH]
    split
    · rfl
    · rw [selWGoH_mem_other rng fuel (k + 1) _
        { buf := avail.buf, len := avail.len - 1 } _ hb]
      exact writeBuf_mem_other h avail.buf _ hb

theorem removeTrickH_mem_other (h : Heap) (s : SliceRef) (id : Int) {b : Nat}
    (hb : b ≠ s.buf) : ((removeTrickH h s id).1).mem b = h.mem b := by
  simp only [removeTrickH]
  split
  · rfl
  · exact writeBuf_mem_other h s.buf _ hb

theorem removeTrickH_buf (h : Heap) (s : SliceRef) (id : Int) :
    ((removeTrickH h s id).2).buf = s.buf := by
  simp only [removeTrickH]
  split
  · rfl
  · rfl

theorem selectFlowGoH_mem_other (rng : Nat → Nat) : ∀ (fuel k : Nat) (h : Heap)
    (avail : SliceRef) (lastTrick : Trick) (selected : List Trick) {b : Nat},
    b ≠ avail.buf →
    ((selectFlowGoH rng fuel k h avail lastTrick selected).1).mem b = h.mem b
  | 0, k, h, avail, lastTrick, selected, b, hb => rfl
  | fuel + 1, k, h, avail, lastTrick, selected, b, hb => by
    simp only [selectFlowGoH]
    split
    · rfl
    · have hbuf := removeTrickH_buf h avail
        (flowPickNext (readSlice h avail) lastTrick (rng k)).1.id
      rw [selectFlowGoH_mem_other rng fuel _ _ _ _ _ (by rw [hbuf]; exact hb)]
      exact removeTrickH_mem_other h avail _ hb

/-- C9: for every pool slice, count and random stream, after either sampler
runs, the caller's candidate buffer — and hence the candidate list read
through the input slice — is exactly what it was before the call: both
samplers write only the fresh working buffer they copied the pool into. -/
theorem samplers_preserve_input (h : Heap) (cand : SliceRef) (count : Int)
    (rng : Nat → Nat) (hb : cand.buf < h.next) :
    ((selectTricksWeightedH h cand count rng).1).mem cand.buf = h.mem cand.buf ∧
    readSlice (selectTricksWeightedH h cand count rng).1 cand = readSlice h cand ∧
    ((selectTricksWithFlowH h cand count rng).1).mem cand.buf = h.mem cand.buf ∧
    readSlice (selectTricksWithFlowH h cand count rng).1 cand = readSlice h cand := by
  have hne : cand.buf ≠ h.next := by omega
  have hw : ((selectTricksWeightedH h cand count rng).1).mem cand.buf =
      h.mem cand.buf := by
    simp only [selectTricksWeightedH]
    rw [selWGoH_mem_other rng count.toNat 0 _ _ _ hne]
    simp only [allocBuf]
    rw [if_neg hne]
  have hf : ((selectTricksWithFlowH h cand count rng).1).mem cand.buf =
      h.mem cand.buf := by
    simp only [selectTricksWithFlowH]
    split
    · rfl
    · have hbuf := removeTrickH_buf (allocBuf h (readSlice h cand)).1
        { buf := (allocBuf h (readSlice h cand)).2, len := (readSlice h cand).length }
        (pickWeightedRandomI (readSlice h cand) (rng 0)).1.id
      rw [selectFlowGoH_mem_other rng (count.toNat - 1) _ _ _ _ _
        (by rw [hbuf]; exact hne)]
      rw [removeTrickH_mem_other _ _ _ hne]
      simp only [allocBuf]
      rw [if_neg hne]
  exact ⟨hw, by simp only [readSlice, hw], hf, by simp only [readSlice, hf]⟩

/-- C9 witness: a concrete heap whose buffer 0 holds a two-element pool;
after both samplers run with count 2, buffer 0 is untouched. -/
theorem samplers_preserve_input_witness :
    ((⟨0, 2⟩ : SliceRef).buf <
        ({ next := 1,
           mem := fun i => if i = 0 then [trickW1, trickW2] else [] } : Heap).next) ∧
    (((selectTricksWeightedH
          { next := 1, mem := fun i => if i = 0 then [trickW1, trickW2] else [] }
          ⟨0, 2⟩ 2 natRng).1).mem (⟨0, 2⟩ : SliceRef).buf =
        ({ next := 1,
           mem := fun i => if i = 0 then [trickW1, trickW2] else [] } : Heap).mem
          (⟨0, 2⟩ : SliceRef).buf ∧
      readSlice (selectTricksWeightedH
          { next := 1, mem := fun i => if i = 0 then [trickW1, trickW2] else [] }
          ⟨0, 2⟩ 2 natRng).1 ⟨0, 2⟩ =
        readSlice
          { next := 1, mem := fun i => if i = 0 then [trickW1, trickW2] else [] }
          ⟨0, 2⟩ ∧
      ((selectTricksWithFlowH
          { next := 1, mem := fun i => if i = 0 then [trickW1, trickW2] else [] }
          ⟨0, 2⟩ 2 natRng).1).mem (⟨0, 2⟩ : SliceRef).buf =
        ({ next := 1,
           mem := fun i => if i = 0 then [trickW1, trickW2] else [] } : Heap).mem
          (⟨0, 2⟩ : SliceRef).buf ∧
      readSlice (selectTricksWithFlowH
          { next := 1, mem := fun i => if i = 0 then [trickW1, trickW2] else [] }
          ⟨0, 2⟩ 2 natRng).1 ⟨0, 2⟩ =
        readSlice
          { next := 1, mem := fun i => if i = 0 then [trickW1, trickW2] else [] }
          ⟨0, 2⟩) :=
  ⟨by decide,
    samplers_preserve_input
      { next := 1, mem := fun i => if i = 0 then [trickW1, trickW2] else [] }
      ⟨0, 2⟩ 2 natRng (by decide)⟩
